import Mathlib

/-!
Verification of the belt-simulator core (`simulator/src/main.rs`).

The Rust source is shallowly embedded: `u32` positions become `Nat`
(in every context the claims quantify over, the source's arithmetic
stays far below `2^32`, so no wrap-around is modelled), the
`NonZeroUsize` item handle becomes an opaque `Nat` (no claim depends
on the non-zero sentinel), the fixed 5-slot array becomes a `List` of
`Option` slots, and the `HashMap` of belts becomes an association
list whose order stands for the map's (arbitrary but fixed) iteration
order.  Rust's stable `sort_by_key(Reverse(pos))` is modelled by
insertion sort: a stable sort's output is uniquely determined by the
key and the input order, so any stable sort is a faithful model.
-/

namespace Belt

/-- 2D grid coordinate (`Coordinate` in the source, `i32` fields). -/
structure Coordinate where
  x : Int
  y : Int
deriving DecidableEq

/-- `BeltType` from the source. -/
inductive BeltType where
  | Regular
  | Fast
  | Express
  | Turbo
deriving DecidableEq

/-- `BeltType::positions_per_tick`. -/
def BeltType.positionsPerTick : BeltType → Nat
  | .Regular => 8
  | .Fast => 16
  | .Express => 24
  | .Turbo => 32

/-- Item handle (`type Item = NonZeroUsize` in the source). -/
abbrev Item := Nat

/-- `SingleBeltLane`: five slots, each empty or holding `(item, position)`. -/
structure SingleBeltLane where
  items : List (Option (Item × Nat))
  beltType : BeltType
  nextLaneCoord : Option Coordinate
deriving DecidableEq

/-- `self.items.iter().enumerate().filter_map(...)`: occupied slots with
their array indices, starting the index count at `n`. -/
def occupiedWithIdx : Nat → List (Option (Item × Nat)) → List (Nat × Item × Nat)
  | _, [] => []
  | n, none :: rest => occupiedWithIdx (n + 1) rest
  | n, some (it, p) :: rest => (n, it, p) :: occupiedWithIdx (n + 1) rest

/-- `sort_by_key(Reverse(pos))`: stable sort by descending position. -/
def sortByPosDesc (l : List (Nat × Item × Nat)) : List (Nat × Item × Nat) :=
  l.insertionSort (fun a b => b.2.2 ≤ a.2.2)

/-- The inner loop of `tick_and_get_transfers` that scans the already
resolved entries `(idx, actual_pos, spacing_pos)` for a spacing conflict
and breaks at the first one. -/
def findCanMove (desired currentPos : Nat) : List (Nat × Nat × Nat) → Nat
  | [] => desired
  | e :: rest =>
    if currentPos < e.2.2 ∧ e.2.2 < desired + 64 then
      max (if 64 < e.2.2 then e.2.2 - 64 else 0) currentPos
    else
      findCanMove desired currentPos rest

/-- The outer loop of `tick_and_get_transfers` (front-to-back resolution):
`acc` is the `new_positions` vector, `src` the sorted occupied slots. -/
def resolveLoop (ppt : Nat) (noSucc : Bool) (acc : List (Nat × Nat × Nat)) :
    List (Nat × Item × Nat) → List (Nat × Nat × Nat)
  | [] => acc
  | e :: rest =>
    let desired := e.2.2 + ppt
    let canMoveTo := findCanMove desired e.2.2 acc
    let spacingPos := if 255 < canMoveTo ∧ noSucc = true then 255 else canMoveTo
    resolveLoop ppt noSucc (acc ++ [(e.1, canMoveTo, spacingPos)]) rest

/-- The `new_positions` list computed by `tick_and_get_transfers`. -/
def computeNewPositions (lane : SingleBeltLane) : List (Nat × Nat × Nat) :=
  resolveLoop lane.beltType.positionsPerTick lane.nextLaneCoord.isNone []
    (sortByPosDesc (occupiedWithIdx 0 lane.items))

/-- The apply loop of `tick_and_get_transfers`: walk `new_positions`,
carrying the slot list and the transfer list.  The source indexes
`self.items[idx]` with an always-in-bounds index; `getD` models that
access. -/
def applyNewPositions (nextLaneCoord : Option Coordinate)
    (st : List (Option (Item × Nat)) × List (Item × Nat)) :
    List (Nat × Nat × Nat) → List (Option (Item × Nat)) × List (Item × Nat)
  | [] => st
  | e :: rest =>
    match st.1.getD e.1 none with
    | some (item, _) =>
      if 255 < e.2.1 then
        if nextLaneCoord.isSome then
          applyNewPositions nextLaneCoord
            (st.1.set e.1 none, st.2 ++ [(item, e.2.1 - 256)]) rest
        else
          applyNewPositions nextLaneCoord
            (st.1.set e.1 (some (item, 255)), st.2) rest
      else
        applyNewPositions nextLaneCoord
          (st.1.set e.1 (some (item, e.2.1)), st.2) rest
    | none => applyNewPositions nextLaneCoord st rest

/-- `SingleBeltLane::tick_and_get_transfers`. -/
def tickAndGetTransfers (lane : SingleBeltLane) :
    SingleBeltLane × List (Item × Nat) :=
  let r := applyNewPositions lane.nextLaneCoord (lane.items, [])
    (computeNewPositions lane)
  ({ lane with items := r.1 }, r.2)

/-- The adjustment loop of `accept_item`: push the landing position just
past any occupied slot strictly behind it that is closer than 64. -/
def adjustPosition (items : List (Option (Item × Nat))) (target : Nat) : Nat :=
  items.foldl
    (fun adj slot =>
      match slot with
      | some (_, pos) => if pos < adj ∧ adj - pos < 64 then pos + 64 else adj
      | none => adj)
    (min target 255)

/-- `self.items.iter_mut().find(|slot| slot.is_none())` followed by the
write: place `v` in the first empty slot, or fail. -/
def placeInFirstEmpty (v : Item × Nat) :
    List (Option (Item × Nat)) → Option (List (Option (Item × Nat)))
  | [] => none
  | none :: rest => some (some v :: rest)
  | some s :: rest => (placeInFirstEmpty v rest).map (fun r => some s :: r)

/-- `SingleBeltLane::accept_item`. -/
def acceptItem (lane : SingleBeltLane) (item : Item) (targetPosition : Nat) :
    SingleBeltLane × Bool :=
  if adjustPosition lane.items targetPosition ≤ 255 then
    match placeInFirstEmpty (item, adjustPosition lane.items targetPosition)
        lane.items with
    | some newItems => ({ lane with items := newItems }, true)
    | none => (lane, false)
  else
    (lane, false)

/-- `SingleBelt`: a tile with two independent lanes. -/
structure SingleBelt where
  leftLane : SingleBeltLane
  rightLane : SingleBeltLane
  coordinate : Coordinate
deriving DecidableEq

/-- `World`: the coordinate-indexed belt map, as an association list. -/
structure World where
  belts : List (Coordinate × SingleBelt)
deriving DecidableEq

/-- `self.belts.get_mut(&coord)` (first matching entry). -/
def World.lookupBelt (w : World) (c : Coordinate) : Option SingleBelt :=
  (w.belts.find? (fun p => p.1 == c)).map Prod.snd

/-- Write back an in-place mutation of the belt stored at `c`. -/
def updateBelt : List (Coordinate × SingleBelt) → Coordinate → SingleBelt →
    List (Coordinate × SingleBelt)
  | [], _, _ => []
  | p :: rest, c, b => if p.1 = c then (c, b) :: rest else p :: updateBelt rest c b

/-- One lane's share of phase A: tick the lane and tag each transfer with
the lane's successor coordinate (`if let Some(next_coord) = ...`). -/
def laneTickTagged (lane : SingleBeltLane) :
    SingleBeltLane × List (Coordinate × Item × Nat) :=
  let r := tickAndGetTransfers lane
  (r.1, r.2.filterMap (fun t => lane.nextLaneCoord.map (fun c => (c, t.1, t.2))))

/-- Phase A for one belt: left lane first, then right lane. -/
def beltTick (belt : SingleBelt) : SingleBelt × List (Coordinate × Item × Nat) :=
  let lr := laneTickTagged belt.leftLane
  let rr := laneTickTagged belt.rightLane
  ({ belt with leftLane := lr.1, rightLane := rr.1 }, lr.2 ++ rr.2)

/-- Phase A over all belts, in the map's iteration order. -/
def phaseA : List (Coordinate × SingleBelt) →
    List (Coordinate × SingleBelt) × List (Coordinate × Item × Nat)
  | [] => ([], [])
  | (c, b) :: rest =>
    let r := beltTick b
    let rr := phaseA rest
    ((c, r.1) :: rr.1, r.2 ++ rr.2)

/-- Phase B for one transfer record: look up the target tile, try the
left lane, then the right lane; drop the item if the tile is missing. -/
def applyTransfer (w : World) (t : Coordinate × Item × Nat) : World :=
  match w.lookupBelt t.1 with
  | some belt =>
    if (acceptItem belt.leftLane t.2.1 t.2.2).2 then
      ⟨updateBelt w.belts t.1
        { belt with leftLane := (acceptItem belt.leftLane t.2.1 t.2.2).1 }⟩
    else
      ⟨updateBelt w.belts t.1
        { belt with leftLane := (acceptItem belt.leftLane t.2.1 t.2.2).1,
                    rightLane := (acceptItem belt.rightLane t.2.1 t.2.2).1 }⟩
  | none => w

/-- `World::tick`: phase A collects every transfer, phase B delivers
them in collection order. -/
def World.tick (w : World) : World :=
  let a := phaseA w.belts
  a.2.foldl applyTransfer ⟨a.1⟩

/-- Positions of the occupied slots of a lane, in slot order. -/
def lanePositions (lane : SingleBeltLane) : List Nat :=
  (lane.items.filterMap id).map Prod.snd

/-- Item handles stored in a slot list, as a multiset. -/
def slotHandles (items : List (Option (Item × Nat))) : Multiset Item :=
  ((items.filterMap id).map Prod.fst : List Item)

/-- Item handles on a lane, as a multiset. -/
def laneItemHandles (lane : SingleBeltLane) : Multiset Item :=
  slotHandles lane.items

/-- Item handles on both lanes of a belt. -/
def beltItemHandles (b : SingleBelt) : Multiset Item :=
  laneItemHandles b.leftLane + laneItemHandles b.rightLane

/-- The global multiset of item handles of a world. -/
def worldItemHandles (w : World) : Multiset Item :=
  (w.belts.map (fun p => beltItemHandles p.2)).sum

/-- Spec invariant 2: any two occupied slots of the lane are at least 64
positions apart. -/
def gapOK (lane : SingleBeltLane) : Prop :=
  (lanePositions lane).Pairwise (fun p q => p + 64 ≤ q ∨ q + 64 ≤ p)

/-- Spec invariant 1: every occupied slot's position is at most 255. -/
def posOK (lane : SingleBeltLane) : Prop :=
  ∀ p ∈ lanePositions lane, p ≤ 255

instance (lane : SingleBeltLane) : Decidable (gapOK lane) := by
  unfold gapOK; infer_instance

instance (lane : SingleBeltLane) : Decidable (posOK lane) := by
  unfold posOK; infer_instance

/-- Spec invariant 2 for every lane of the world. -/
def worldGapOK (w : World) : Prop :=
  ∀ p ∈ w.belts, gapOK p.2.leftLane ∧ gapOK p.2.rightLane

/-- Spec invariant 1 for every lane of the world. -/
def worldPosOK (w : World) : Prop :=
  ∀ p ∈ w.belts, posOK p.2.leftLane ∧ posOK p.2.rightLane

instance (w : World) : Decidable (worldGapOK w) := by
  unfold worldGapOK; infer_instance

instance (w : World) : Decidable (worldPosOK w) := by
  unfold worldPosOK; infer_instance

/-- The per-slot outcome of the apply loop of `tick_and_get_transfers`
for an occupied slot whose resolved actual position is `cm`:
transfer out (slot vacated), clamp to 255, or store `cm`. -/
def slotResult (next : Option Coordinate) (slot : Option (Item × Nat)) (cm : Nat) :
    Option (Item × Nat) :=
  match slot with
  | some (it, _) =>
    if 255 < cm then (if next.isSome then none else some (it, 255))
    else some (it, cm)
  | none => none

/-- The transfer record an entry of `new_positions` contributes. -/
def transferResult (next : Option Coordinate) (slot : Option (Item × Nat))
    (cm : Nat) : Option (Item × Nat) :=
  match slot with
  | some (it, _) =>
    if 255 < cm ∧ next.isSome = true then some (it, cm - 256) else none
  | none => none

/-! ### Generic slot-list lemmas -/

theorem getD_set_self {α : Type} (l : List α) (j : Nat) (v : α) (d : α)
    (h : j < l.length) : (l.set j v).getD j d = v := by
  simp [List.getD_eq_getElem?_getD, List.getElem?_set_self h]

theorem getD_set_ne {α : Type} (l : List α) {j k : Nat} (v : α) (d : α)
    (h : j ≠ k) : (l.set j v).getD k d = l.getD k d := by
  simp [List.getD_eq_getElem?_getD, List.getElem?_set_ne h]

theorem getD_some_lt {α : Type} (l : List (Option α)) (k : Nat) (v : α)
    (h : l.getD k none = some v) : k < l.length := by
  by_contra hk
  rw [List.getD_eq_getElem?_getD, List.getElem?_eq_none (by omega)] at h
  simp at h

/-- Occupied positions, read off through `getD`: membership form. -/
theorem mem_filterMap_id_iff_getD {α : Type} :
    ∀ (l : List (Option α)) (v : α),
      v ∈ l.filterMap id ↔ ∃ k, l.getD k none = some v
  | [], v => by simp
  | none :: rest, v => by
    have hfm : List.filterMap id (none :: rest) = List.filterMap id rest := by simp
    rw [hfm, mem_filterMap_id_iff_getD rest v]
    constructor
    · rintro ⟨k, hk⟩
      exact ⟨k + 1, hk⟩
    · rintro ⟨k, hk⟩
      match k with
      | 0 => exact Option.noConfusion (show (none : Option α) = some v from hk)
      | k + 1 => exact ⟨k, hk⟩
  | some s :: rest, v => by
    have hfm : List.filterMap id (some s :: rest) = s :: List.filterMap id rest := by simp
    rw [hfm]
    simp only [List.mem_cons]
    rw [mem_filterMap_id_iff_getD rest v]
    constructor
    · rintro (rfl | ⟨k, hk⟩)
      · exact ⟨0, rfl⟩
      · exact ⟨k + 1, hk⟩
    · rintro ⟨k, hk⟩
      match k with
      | 0 =>
        left
        have hsv : some s = some v := hk
        injection hsv with hsv
        exact hsv.symm
      | k + 1 => right; exact ⟨k, hk⟩

/-- Build `Pairwise` on the occupied positions from a per-index fact. -/
theorem pairwise_positions_of_getD {R : Nat → Nat → Prop} :
    ∀ (items : List (Option (Item × Nat))),
      (∀ j k x y, j < k → items.getD j none = some x →
        items.getD k none = some y → R x.2 y.2) →
      ((items.filterMap id).map Prod.snd).Pairwise R
  | [], _ => by simp
  | none :: rest, h => by
    have hfm : List.filterMap id (none :: rest) = List.filterMap id rest := by simp
    rw [hfm]
    exact pairwise_positions_of_getD rest
      (fun j k x y hjk hj hk => h (j + 1) (k + 1) x y (by omega) hj hk)
  | some s :: rest, h => by
    have hfm : List.filterMap id (some s :: rest) = s :: List.filterMap id rest := by simp
    rw [hfm, List.map_cons, List.pairwise_cons]
    constructor
    · intro q hq
      obtain ⟨y, hy, rfl⟩ := List.mem_map.mp hq
      obtain ⟨k, hk⟩ := (mem_filterMap_id_iff_getD rest y).mp hy
      exact h 0 (k + 1) s y (by omega) rfl hk
    · exact pairwise_positions_of_getD rest
        (fun j k x y hjk hj hk => h (j + 1) (k + 1) x y (by omega) hj hk)

/-! ### `accept_item` lemmas -/

/-- A refused `accept_item` performs no mutation at all. -/
theorem acceptItem_not_accepted (lane : SingleBeltLane) (it : Item) (p : Nat)
    (h : (acceptItem lane it p).2 = false) : (acceptItem lane it p).1 = lane := by
  unfold acceptItem at h ⊢
  by_cases hc : adjustPosition lane.items p ≤ 255
  · rw [if_pos hc] at h ⊢
    cases hplace : placeInFirstEmpty (it, adjustPosition lane.items p) lane.items with
    | none => rfl
    | some newItems => rw [hplace] at h; simp at h
  · rw [if_neg hc]

/-- `placeInFirstEmpty` writes exactly one previously empty slot. -/
theorem placeInFirstEmpty_spec (v : Item × Nat) :
    ∀ (items r : List (Option (Item × Nat))),
      placeInFirstEmpty v items = some r →
      ∃ j, j < items.length ∧ items.getD j none = none ∧ r = items.set j (some v)
  | [], r, h => by simp [placeInFirstEmpty] at h
  | none :: rest, r, h => by
    refine ⟨0, by simp, rfl, ?_⟩
    simp only [placeInFirstEmpty, Option.some.injEq] at h
    simp [← h]
  | some s :: rest, r, h => by
    simp only [placeInFirstEmpty, Option.map_eq_some'] at h
    obtain ⟨r', hr', rfl⟩ := h
    obtain ⟨j, h1, h2, h3⟩ := placeInFirstEmpty_spec v rest r' hr'
    exact ⟨j + 1, by simpa using h1, by simpa using h2, by simp [h3]⟩

/-- On a list of empty slots the adjustment loop is the identity on
`min target 255`. -/
theorem adjustPosition_of_all_none :
    ∀ (items : List (Option (Item × Nat))) (t : Nat),
      (∀ s ∈ items, s = none) → adjustPosition items t = min t 255
  | [], _, _ => rfl
  | s :: rest, t, h => by
    have hs : s = none := h s (by simp)
    subst hs
    exact adjustPosition_of_all_none rest t (fun x hx => h x (by simp [hx]))

theorem filterMap_id_of_all_none (items : List (Option (Item × Nat)))
    (h : ∀ s ∈ items, s = none) : items.filterMap id = [] := by
  simp only [List.filterMap_eq_nil_iff]
  exact fun a ha => by simp [h a ha]

/-- `accept_item` on an empty lane succeeds and stores the item at
exactly `min target 255`. -/
theorem acceptItem_on_empty (lane : SingleBeltLane) (it : Item) (p : Nat)
    (hne : lane.items ≠ []) (h : ∀ s ∈ lane.items, s = none) :
    (acceptItem lane it p).2 = true ∧
    (acceptItem lane it p).1.items.filterMap id = [(it, min p 255)] := by
  obtain ⟨s, rest, hs⟩ : ∃ s rest, lane.items = s :: rest := by
    cases hitems : lane.items with
    | nil => exact absurd hitems hne
    | cons a l => exact ⟨a, l, rfl⟩
  have hshead : s = none := h s (by simp [hs])
  have hrest : ∀ x ∈ rest, x = none := fun x hx => h x (by simp [hs, hx])
  have hadj : adjustPosition lane.items p = min p 255 :=
    adjustPosition_of_all_none lane.items p h
  have hplace : placeInFirstEmpty (it, min p 255) lane.items =
      some (some (it, min p 255) :: rest) := by
    rw [hs, hshead]; rfl
  unfold acceptItem
  rw [hadj, hplace]
  simp [min_le_right, filterMap_id_of_all_none rest hrest]

/-! ### Occupied-slot enumeration lemmas -/

theorem mem_occupiedWithIdx :
    ∀ (items : List (Option (Item × Nat))) (n j : Nat) (it : Item) (p : Nat),
      (j, it, p) ∈ occupiedWithIdx n items ↔
        ∃ k, j = n + k ∧ items.getD k none = some (it, p)
  | [], n, j, it, p => by
    simp only [occupiedWithIdx, List.not_mem_nil, false_iff]
    rintro ⟨k, _, hk⟩
    exact Option.noConfusion (show (none : Option (Item × Nat)) = some (it, p) from hk)
  | none :: rest, n, j, it, p => by
    rw [show occupiedWithIdx n (none :: rest) = occupiedWithIdx (n + 1) rest from rfl,
      mem_occupiedWithIdx rest (n + 1) j it p]
    constructor
    · rintro ⟨k, rfl, hk⟩
      exact ⟨k + 1, by omega, hk⟩
    · rintro ⟨k, rfl, hk⟩
      match k with
      | 0 => exact Option.noConfusion (show (none : Option (Item × Nat)) = some (it, p) from hk)
      | k + 1 => exact ⟨k, by omega, hk⟩
  | some s :: rest, n, j, it, p => by
    rw [show occupiedWithIdx n (some s :: rest) =
        (n, s.1, s.2) :: occupiedWithIdx (n + 1) rest from by cases s; rfl]
    rw [List.mem_cons, mem_occupiedWithIdx rest (n + 1) j it p]
    constructor
    · rintro (heq | ⟨k, rfl, hk⟩)
      · simp only [Prod.mk.injEq] at heq
        obtain ⟨rfl, rfl, rfl⟩ := heq
        exact ⟨0, by omega, rfl⟩
      · exact ⟨k + 1, by omega, hk⟩
    · rintro ⟨k, rfl, hk⟩
      match k with
      | 0 =>
        left
        have hsv : some s = some (it, p) := hk
        injection hsv with hsv
        simp [hsv]
      | k + 1 => right; exact ⟨k, by omega, hk⟩

theorem occupiedWithIdx_fst_ge :
    ∀ (items : List (Option (Item × Nat))) (n : Nat),
      ∀ e ∈ occupiedWithIdx n items, n ≤ e.1
  | [], _, _, he => absurd he (List.not_mem_nil _)
  | none :: rest, n, e, he => by
    have := occupiedWithIdx_fst_ge rest (n + 1) e he
    omega
  | some s :: rest, n, e, he => by
    rw [show occupiedWithIdx n (some s :: rest) =
        (n, s.1, s.2) :: occupiedWithIdx (n + 1) rest from by cases s; rfl,
      List.mem_cons] at he
    rcases he with rfl | he
    · exact le_refl n
    · have := occupiedWithIdx_fst_ge rest (n + 1) e he
      omega

theorem occupiedWithIdx_fst_pairwise :
    ∀ (items : List (Option (Item × Nat))) (n : Nat),
      (occupiedWithIdx n items).Pairwise (fun a b => a.1 < b.1)
  | [], _ => List.Pairwise.nil
  | none :: rest, n => occupiedWithIdx_fst_pairwise rest (n + 1)
  | some s :: rest, n => by
    rw [show occupiedWithIdx n (some s :: rest) =
        (n, s.1, s.2) :: occupiedWithIdx (n + 1) rest from by cases s; rfl,
      List.pairwise_cons]
    exact ⟨fun e he => by have := occupiedWithIdx_fst_ge rest (n + 1) e he; omega,
      occupiedWithIdx_fst_pairwise rest (n + 1)⟩

/-- The emitted positions agree with `lanePositions`, slot for slot. -/
theorem occupiedWithIdx_map_pos :
    ∀ (items : List (Option (Item × Nat))) (n : Nat),
      (occupiedWithIdx n items).map (fun e => e.2.2) =
        (items.filterMap id).map Prod.snd
  | [], _ => rfl
  | none :: rest, n => by
    have hfm : List.filterMap id (none :: rest) = List.filterMap id rest := by simp
    rw [hfm]
    exact occupiedWithIdx_map_pos rest (n + 1)
  | some s :: rest, n => by
    have hfm : List.filterMap id (some s :: rest) = s :: List.filterMap id rest := by simp
    rw [hfm,
      show occupiedWithIdx n (some s :: rest) =
        (n, s.1, s.2) :: occupiedWithIdx (n + 1) rest from by cases s; rfl,
      List.map_cons, List.map_cons, occupiedWithIdx_map_pos rest (n + 1)]

/-! ### Sorting lemmas -/

instance : IsTotal (Nat × Item × Nat) (fun a b => b.2.2 ≤ a.2.2) :=
  ⟨fun a b => (le_total b.2.2 a.2.2).imp id id⟩

instance : IsTrans (Nat × Item × Nat) (fun a b => b.2.2 ≤ a.2.2) :=
  ⟨fun _ _ _ h1 h2 => le_trans h2 h1⟩

theorem sortByPosDesc_perm (l : List (Nat × Item × Nat)) :
    (sortByPosDesc l).Perm l :=
  List.perm_insertionSort _ l

theorem sortByPosDesc_sorted (l : List (Nat × Item × Nat)) :
    (sortByPosDesc l).Pairwise (fun a b => b.2.2 ≤ a.2.2) :=
  List.sorted_insertionSort _ l

/-! ### `findCanMove` lemmas -/

theorem findCanMove_ge (desired c : Nat) (h : c ≤ desired) :
    ∀ acc, c ≤ findCanMove desired c acc
  | [] => h
  | e :: rest => by
    unfold findCanMove
    split
    · exact le_max_right _ _
    · exact findCanMove_ge desired c h rest

/-- Every element of a 64-separated descending chain sits at or above
the chain's last element. -/
theorem pairwise_ge_getLast :
    ∀ (l : List (Nat × Nat × Nat)) (hne : l ≠ []),
      l.Pairwise (fun a b => b.2.2 + 64 ≤ a.2.2) →
      ∀ a ∈ l, (l.getLast hne).2.2 ≤ a.2.2
  | [], hne, _, _, _ => absurd rfl hne
  | [x], _, _, a, ha => by
    rw [List.mem_singleton] at ha
    subst ha
    exact le_refl _
  | x :: y :: r, _, hp, a, ha => by
    rw [List.getLast_cons (by simp)]
    rcases List.mem_cons.mp ha with rfl | ha
    · have hlast := List.getLast_mem (show y :: r ≠ [] by simp)
      have := (List.pairwise_cons.mp hp).1 _ hlast
      omega
    · exact pairwise_ge_getLast (y :: r) (by simp) (List.pairwise_cons.mp hp).2 a ha

/-- With a 64-separated resolved list whose entries all clear the current
position by 64, the spacing scan yields a value at least 64 behind the
immediate leader (the list's last entry). -/
theorem findCanMove_le_getLast (desired c : Nat) (hd : desired ≤ c + 32) :
    ∀ (acc : List (Nat × Nat × Nat)) (hne : acc ≠ []),
      acc.Pairwise (fun a b => b.2.2 + 64 ≤ a.2.2) →
      (∀ e ∈ acc, c + 64 ≤ e.2.2) →
      findCanMove desired c acc + 64 ≤ (acc.getLast hne).2.2
  | [], hne, _, _ => absurd rfl hne
  | [e], _, _, hub => by
    have hce : c + 64 ≤ e.2.2 := hub e (by simp)
    unfold findCanMove
    split
    · rw [List.getLast_singleton]
      split <;> omega
    · rw [List.getLast_singleton]
      unfold findCanMove
      omega
  | e :: e2 :: rest, _, hp, hub => by
    have hlast := List.getLast_mem (show e2 :: rest ≠ [] by simp)
    have h1 : ((e2 :: rest).getLast (by simp)).2.2 + 64 ≤ e.2.2 :=
      (List.pairwise_cons.mp hp).1 _ hlast
    have h2 : c + 64 ≤ ((e2 :: rest).getLast (by simp)).2.2 :=
      hub _ (List.mem_cons_of_mem e hlast)
    have hno : ¬(c < e.2.2 ∧ e.2.2 < desired + 64) := by omega
    have hstep : findCanMove desired c (e :: e2 :: rest) =
        findCanMove desired c (e2 :: rest) := by
      show (if c < e.2.2 ∧ e.2.2 < desired + 64 then
          max (if 64 < e.2.2 then e.2.2 - 64 else 0) c
        else findCanMove desired c (e2 :: rest)) =
        findCanMove desired c (e2 :: rest)
      rw [if_neg hno]
    rw [List.getLast_cons (by simp), hstep]
    exact findCanMove_le_getLast desired c hd (e2 :: rest) (by simp)
      (List.pairwise_cons.mp hp).2 (fun x hx => hub x (by simp [hx]))

/-! ### `resolveLoop` lemmas -/

theorem resolveLoop_map_fst (ppt : Nat) (ns : Bool) :
    ∀ (src : List (Nat × Item × Nat)) (acc : List (Nat × Nat × Nat)),
      (resolveLoop ppt ns acc src).map (fun e => e.1) =
        acc.map (fun e => e.1) ++ src.map (fun e => e.1)
  | [], acc => by simp [resolveLoop]
  | s :: rest, acc => by
    rw [show resolveLoop ppt ns acc (s :: rest) =
      resolveLoop ppt ns
        (acc ++ [(s.1, findCanMove (s.2.2 + ppt) s.2.2 acc,
          if 255 < findCanMove (s.2.2 + ppt) s.2.2 acc ∧ ns = true then 255
          else findCanMove (s.2.2 + ppt) s.2.2 acc)]) rest from rfl]
    rw [resolveLoop_map_fst ppt ns rest]
    simp

/-- Every entry the resolution loop appends carries the array index and
at least the current position of some source item, and its spacing value
is determined by its actual value. -/
theorem resolveLoop_entry_src (ppt : Nat) (ns : Bool) :
    ∀ (src : List (Nat × Item × Nat)) (acc : List (Nat × Nat × Nat)),
      ∀ e ∈ resolveLoop ppt ns acc src,
        e ∈ acc ∨ ∃ s ∈ src, e.1 = s.1 ∧ s.2.2 ≤ e.2.1 ∧
          e.2.2 = if 255 < e.2.1 ∧ ns = true then 255 else e.2.1
  | [], acc, e, he => Or.inl he
  | s :: rest, acc, e, he => by
    rw [show resolveLoop ppt ns acc (s :: rest) =
      resolveLoop ppt ns
        (acc ++ [(s.1, findCanMove (s.2.2 + ppt) s.2.2 acc,
          if 255 < findCanMove (s.2.2 + ppt) s.2.2 acc ∧ ns = true then 255
          else findCanMove (s.2.2 + ppt) s.2.2 acc)]) rest from rfl] at he
    rcases resolveLoop_entry_src ppt ns rest _ e he with hacc | ⟨s', hs', h1, h2, h3⟩
    · rcases List.mem_append.mp hacc with hacc | hnew
      · exact Or.inl hacc
      · rw [List.mem_singleton] at hnew
        subst hnew
        exact Or.inr ⟨s, by simp,
          rfl, findCanMove_ge _ _ (Nat.le_add_right _ _) acc, rfl⟩
    · exact Or.inr ⟨s', by simp [hs'], h1, h2, h3⟩

/-- The spacing values of the resolved list form a descending chain with
gaps of at least 64, provided the source items do. -/
theorem resolveLoop_spacing (ppt : Nat) (hppt : ppt ≤ 32) (ns : Bool) :
    ∀ (src : List (Nat × Item × Nat)) (acc : List (Nat × Nat × Nat)),
      src.Pairwise (fun a b => b.2.2 + 64 ≤ a.2.2) →
      (∀ s ∈ src, s.2.2 ≤ 255) →
      acc.Pairwise (fun a b => b.2.2 + 64 ≤ a.2.2) →
      (∀ a ∈ acc, ∀ s ∈ src, s.2.2 + 64 ≤ a.2.2) →
      (resolveLoop ppt ns acc src).Pairwise (fun a b => b.2.2 + 64 ≤ a.2.2)
  | [], acc, _, _, hacc, _ => hacc
  | s :: rest, acc, hsrc, hle, hacc, haccsrc => by
    rw [show resolveLoop ppt ns acc (s :: rest) =
      resolveLoop ppt ns
        (acc ++ [(s.1, findCanMove (s.2.2 + ppt) s.2.2 acc,
          if 255 < findCanMove (s.2.2 + ppt) s.2.2 acc ∧ ns = true then 255
          else findCanMove (s.2.2 + ppt) s.2.2 acc)]) rest from rfl]
    have hcm := findCanMove_ge (s.2.2 + ppt) s.2.2 (Nat.le_add_right _ _) acc
    have hsp : (if 255 < findCanMove (s.2.2 + ppt) s.2.2 acc ∧ ns = true then 255
        else findCanMove (s.2.2 + ppt) s.2.2 acc) ≤
        findCanMove (s.2.2 + ppt) s.2.2 acc := by
      split
      · omega
      · exact le_refl _
    have hnewacc : ∀ a ∈ acc,
        (if 255 < findCanMove (s.2.2 + ppt) s.2.2 acc ∧ ns = true then 255
          else findCanMove (s.2.2 + ppt) s.2.2 acc) + 64 ≤ a.2.2 := by
      intro a ha
      have hne : acc ≠ [] := by rintro rfl; exact absurd ha (List.not_mem_nil a)
      have hlast := findCanMove_le_getLast (s.2.2 + ppt) s.2.2 (by omega) acc hne hacc
        (fun e he => haccsrc e he s (by simp))
      have hge := pairwise_ge_getLast acc hne hacc a ha
      omega
    refine resolveLoop_spacing ppt hppt ns rest _
      (List.pairwise_cons.mp hsrc).2 (fun x hx => hle x (by simp [hx])) ?_ ?_
    · rw [List.pairwise_append]
      exact ⟨hacc, List.pairwise_singleton _ _,
        fun a ha b hb => by rw [List.mem_singleton] at hb; subst hb; exact hnewacc a ha⟩
    · intro a ha s' hs'
      rcases List.mem_append.mp ha with ha | ha
      · exact haccsrc a ha s' (by simp [hs'])
      · rw [List.mem_singleton] at ha
        subst ha
        have hgap : s'.2.2 + 64 ≤ s.2.2 := (List.pairwise_cons.mp hsrc).1 s' hs'
        have hs255 : s.2.2 ≤ 255 := hle s (by simp)
        show s'.2.2 + 64 ≤
          (if 255 < findCanMove (s.2.2 + ppt) s.2.2 acc ∧ ns = true then 255
            else findCanMove (s.2.2 + ppt) s.2.2 acc)
        split <;> omega

/-! ### `applyNewPositions` characterization -/

theorem find?_fst_eq_none {k : Nat} (l : List (Nat × Nat × Nat))
    (h : ∀ x ∈ l, x.1 ≠ k) : l.find? (fun x => x.1 == k) = none :=
  List.find?_eq_none.mpr (fun x hx => by simp [h x hx])

theorem find?_fst_cons_self (x : Nat × Nat × Nat) (l : List (Nat × Nat × Nat)) :
    (x :: l).find? (fun y => y.1 == x.1) = some x := by
  simp [List.find?]

theorem find?_fst_cons_ne {k : Nat} (x : Nat × Nat × Nat)
    (l : List (Nat × Nat × Nat)) (h : x.1 ≠ k) :
    (x :: l).find? (fun y => y.1 == k) = l.find? (fun y => y.1 == k) := by
  have hb : (x.1 == k) = false := by simp [h]
  simp [List.find?, hb]

theorem find?_fst_of_mem_nodup :
    ∀ (nps : List (Nat × Nat × Nat)), (nps.map (fun e => e.1)).Nodup →
      ∀ e ∈ nps, nps.find? (fun x => x.1 == e.1) = some e
  | [], _, e, he => absurd he (List.not_mem_nil e)
  | x :: rest, hnd, e, he => by
    rw [List.map_cons, List.nodup_cons] at hnd
    rcases List.mem_cons.mp he with rfl | he
    · exact find?_fst_cons_self e rest
    · have hx : x.1 ≠ e.1 := fun hEq =>
        hnd.1 (hEq ▸ List.mem_map_of_mem (fun e => e.1) he)
      rw [find?_fst_cons_ne x rest hx]
      exact find?_fst_of_mem_nodup rest hnd.2 e he

theorem find?_fst_exists {k : Nat} (nps : List (Nat × Nat × Nat))
    (h : k ∈ nps.map (fun e => e.1)) :
    ∃ e, nps.find? (fun x => x.1 == k) = some e ∧ e.1 = k ∧ e ∈ nps := by
  obtain ⟨e, he, rfl⟩ := List.mem_map.mp h
  have hsome : (nps.find? (fun x => x.1 == e.1)).isSome :=
    List.find?_isSome.mpr ⟨e, he, by simp⟩
  obtain ⟨f, hf⟩ := Option.isSome_iff_exists.mp hsome
  have h1 : ((fun (x : Nat × Nat × Nat) => x.1 == e.1) f) = true :=
    List.find?_some (p := fun (x : Nat × Nat × Nat) => x.1 == e.1) hf
  exact ⟨f, hf, beq_iff_eq.mp h1, List.mem_of_find?_eq_some hf⟩

/-- One unfolding step of the apply loop. -/
theorem applyNewPositions_cons (next : Option Coordinate)
    (items : List (Option (Item × Nat))) (tr : List (Item × Nat))
    (e : Nat × Nat × Nat) (rest : List (Nat × Nat × Nat)) :
    applyNewPositions next (items, tr) (e :: rest) =
      match items.getD e.1 none with
      | some (item, _) =>
        if 255 < e.2.1 then
          if next.isSome then
            applyNewPositions next
              (items.set e.1 none, tr ++ [(item, e.2.1 - 256)]) rest
          else
            applyNewPositions next
              (items.set e.1 (some (item, 255)), tr) rest
        else
          applyNewPositions next
            (items.set e.1 (some (item, e.2.1)), tr) rest
      | none => applyNewPositions next (items, tr) rest := rfl

theorem applyNewPositions_cons_empty (next : Option Coordinate)
    {items : List (Option (Item × Nat))} (tr : List (Item × Nat))
    {e : Nat × Nat × Nat} (rest : List (Nat × Nat × Nat))
    (h : items.getD e.1 none = none) :
    applyNewPositions next (items, tr) (e :: rest) =
      applyNewPositions next (items, tr) rest := by
  rw [applyNewPositions_cons, h]

theorem applyNewPositions_cons_occupied (next : Option Coordinate)
    {items : List (Option (Item × Nat))} (tr : List (Item × Nat))
    {e : Nat × Nat × Nat} (rest : List (Nat × Nat × Nat)) {item : Item} {q : Nat}
    (h : items.getD e.1 none = some (item, q)) :
    applyNewPositions next (items, tr) (e :: rest) =
      (if 255 < e.2.1 then
        if next.isSome then
          applyNewPositions next
            (items.set e.1 none, tr ++ [(item, e.2.1 - 256)]) rest
        else
          applyNewPositions next
            (items.set e.1 (some (item, 255)), tr) rest
      else
        applyNewPositions next
          (items.set e.1 (some (item, e.2.1)), tr) rest) := by
  rw [applyNewPositions_cons, h]

/-- Slot-level characterization of the apply loop: with distinct indices,
each slot's final content is `slotResult` of its (unique) entry, and
slots without an entry are untouched. -/
theorem applyNewPositions_getD (next : Option Coordinate) :
    ∀ (nps : List (Nat × Nat × Nat)) (items : List (Option (Item × Nat)))
      (tr : List (Item × Nat)),
      (nps.map (fun e => e.1)).Nodup →
      ∀ k, (applyNewPositions next (items, tr) nps).1.getD k none =
        match nps.find? (fun e => e.1 == k) with
        | some e => slotResult next (items.getD k none) e.2.1
        | none => items.getD k none
  | [], items, tr, _, k => by simp [applyNewPositions]
  | e :: rest, items, tr, hnd, k => by
    rw [List.map_cons, List.nodup_cons] at hnd
    have hknotin : ∀ x ∈ rest, x.1 ≠ e.1 := fun x hx hEq =>
      hnd.1 (hEq ▸ List.mem_map_of_mem (fun e => e.1) hx)
    by_cases hk : e.1 = k
    · subst hk
      rw [find?_fst_cons_self e rest]
      show _ = slotResult next (items.getD e.1 none) e.2.1
      cases hslot : items.getD e.1 none with
      | none =>
        rw [applyNewPositions_cons_empty next tr rest hslot,
          applyNewPositions_getD next rest items tr hnd.2 e.1,
          find?_fst_eq_none rest hknotin, hslot]
        rfl
      | some sv =>
        obtain ⟨item, q⟩ := sv
        have hlt : e.1 < items.length := getD_some_lt items e.1 (item, q) hslot
        rw [applyNewPositions_cons_occupied next tr rest hslot]
        show _ = slotResult next (some (item, q)) e.2.1
        by_cases hcm : 255 < e.2.1
        · rw [if_pos hcm]
          cases hnext : next.isSome with
          | true =>
            rw [if_pos rfl,
              applyNewPositions_getD next rest _ _ hnd.2 e.1,
              find?_fst_eq_none rest hknotin,
              getD_set_self items e.1 none none hlt]
            simp [slotResult, hcm, hnext]
          | false =>
            rw [if_neg (by simp [hnext]),
              applyNewPositions_getD next rest _ _ hnd.2 e.1,
              find?_fst_eq_none rest hknotin,
              getD_set_self items e.1 (some (item, 255)) none hlt]
            simp [slotResult, hcm, hnext]
        · rw [if_neg hcm,
            applyNewPositions_getD next rest _ _ hnd.2 e.1,
            find?_fst_eq_none rest hknotin,
            getD_set_self items e.1 (some (item, e.2.1)) none hlt]
          simp [slotResult, hcm]
    · rw [find?_fst_cons_ne e rest hk]
      cases hslot : items.getD e.1 none with
      | none =>
        rw [applyNewPositions_cons_empty next tr rest hslot,
          applyNewPositions_getD next rest items tr hnd.2 k]
      | some sv =>
        obtain ⟨item, q⟩ := sv
        rw [applyNewPositions_cons_occupied next tr rest hslot]
        have hrw : ∀ (v : Option (Item × Nat)) (tr2 : List (Item × Nat)),
            (applyNewPositions next (items.set e.1 v, tr2) rest).1.getD k none =
              match rest.find? (fun x => x.1 == k) with
              | some f => slotResult next (items.getD k none) f.2.1
              | none => items.getD k none := by
          intro v tr2
          rw [applyNewPositions_getD next rest _ _ hnd.2 k,
            getD_set_ne items v none hk]
        by_cases hcm : 255 < e.2.1
        · rw [if_pos hcm]
          cases hnext : next.isSome with
          | true => rw [if_pos rfl, hrw]
          | false => rw [if_neg (by simp [hnext]), hrw]
        · rw [if_neg hcm, hrw]

/-- Transfer-level characterization of the apply loop. -/
theorem applyNewPositions_transfers (next : Option Coordinate) :
    ∀ (nps : List (Nat × Nat × Nat)) (items : List (Option (Item × Nat)))
      (tr : List (Item × Nat)),
      (nps.map (fun e => e.1)).Nodup →
      (applyNewPositions next (items, tr) nps).2 =
        tr ++ nps.filterMap
          (fun e => transferResult next (items.getD e.1 none) e.2.1)
  | [], items, tr, _ => by simp [applyNewPositions]
  | e :: rest, items, tr, hnd => by
    rw [List.map_cons, List.nodup_cons] at hnd
    have hknotin : ∀ x ∈ rest, x.1 ≠ e.1 := fun x hx hEq =>
      hnd.1 (hEq ▸ List.mem_map_of_mem (fun e => e.1) hx)
    have hcongr : ∀ (v : Option (Item × Nat)),
        rest.filterMap
          (fun x => transferResult next ((items.set e.1 v).getD x.1 none) x.2.1) =
        rest.filterMap
          (fun x => transferResult next (items.getD x.1 none) x.2.1) :=
      fun v => List.filterMap_congr
        (fun x hx => by rw [getD_set_ne items v none (Ne.symm (hknotin x hx))])
    cases hslot : items.getD e.1 none with
    | none =>
      have hslot2 : items[e.1]?.getD none = none := by
        rw [← List.getD_eq_getElem?_getD]; exact hslot
      rw [applyNewPositions_cons_empty next tr rest hslot,
        applyNewPositions_transfers next rest items tr hnd.2]
      simp [List.filterMap_cons, transferResult, hslot2]
    | some sv =>
      obtain ⟨item, q⟩ := sv
      have hslot2 : items[e.1]?.getD none = some (item, q) := by
        rw [← List.getD_eq_getElem?_getD]; exact hslot
      rw [applyNewPositions_cons_occupied next tr rest hslot]
      by_cases hcm : 255 < e.2.1
      · rw [if_pos hcm]
        cases hnext : next.isSome with
        | true =>
          rw [if_pos rfl, applyNewPositions_transfers next rest _ _ hnd.2, hcongr]
          simp [List.filterMap_cons, transferResult, hslot2, hcm, hnext]
        | false =>
          rw [if_neg (by simp [hnext]),
            applyNewPositions_transfers next rest _ _ hnd.2, hcongr]
          simp [List.filterMap_cons, transferResult, hslot2, hcm, hnext]
      · rw [if_neg hcm, applyNewPositions_transfers next rest _ _ hnd.2, hcongr]
        simp [List.filterMap_cons, transferResult, hslot2, hcm]

/-! ### `computeNewPositions` index structure -/

theorem positionsPerTick_le (t : BeltType) : t.positionsPerTick ≤ 32 := by
  cases t <;> simp [BeltType.positionsPerTick]

theorem computeNewPositions_map_fst (lane : SingleBeltLane) :
    (computeNewPositions lane).map (fun e => e.1) =
      (sortByPosDesc (occupiedWithIdx 0 lane.items)).map (fun e => e.1) := by
  unfold computeNewPositions
  rw [resolveLoop_map_fst]
  simp

theorem computeNewPositions_fst_nodup (lane : SingleBeltLane) :
    ((computeNewPositions lane).map (fun e => e.1)).Nodup := by
  rw [computeNewPositions_map_fst]
  have hperm : ((sortByPosDesc (occupiedWithIdx 0 lane.items)).map
      (fun e => e.1)).Perm ((occupiedWithIdx 0 lane.items).map (fun e => e.1)) :=
    (sortByPosDesc_perm _).map _
  rw [hperm.nodup_iff]
  show ((occupiedWithIdx 0 lane.items).map
    (fun e => e.1)).Pairwise (fun a b => a ≠ b)
  exact List.pairwise_map.mpr
    ((occupiedWithIdx_fst_pairwise lane.items 0).imp (fun h => Nat.ne_of_lt h))

/-- An occupied slot index is always covered by `new_positions`. -/
theorem occupied_mem_computeNewPositions (lane : SingleBeltLane) {k : Nat}
    {y : Item × Nat} (hk : lane.items.getD k none = some y) :
    k ∈ (computeNewPositions lane).map (fun e => e.1) := by
  rw [computeNewPositions_map_fst]
  have hocc : (k, y.1, y.2) ∈ occupiedWithIdx 0 lane.items :=
    (mem_occupiedWithIdx lane.items 0 k y.1 y.2).mpr ⟨k, by omega, hk⟩
  have hsrt : (k, y.1, y.2) ∈ sortByPosDesc (occupiedWithIdx 0 lane.items) :=
    ((sortByPosDesc_perm _).mem_iff).mpr hocc
  exact List.mem_map_of_mem (fun e => e.1) hsrt

/-- Every occupied slot of the post-advance lane is described by a unique
`new_positions` entry: it holds the original slot's item, its stored
position is the entry's spacing value, and the entry's actual value is at
least the original position. -/
theorem result_slot_spacing (lane : SingleBeltLane) {k : Nat} {x : Item × Nat}
    (hx : (tickAndGetTransfers lane).1.items.getD k none = some x) :
    ∃ e ∈ computeNewPositions lane, e.1 = k ∧ x.2 = e.2.2 ∧
      e.2.2 = (if 255 < e.2.1 ∧ lane.nextLaneCoord.isNone = true then 255
        else e.2.1) ∧
      ∃ y, lane.items.getD k none = some y ∧ y.1 = x.1 ∧ y.2 ≤ e.2.1 := by
  have hnd := computeNewPositions_fst_nodup lane
  have hchar := applyNewPositions_getD lane.nextLaneCoord
    (computeNewPositions lane) lane.items [] hnd k
  have hres : (tickAndGetTransfers lane).1.items =
      (applyNewPositions lane.nextLaneCoord (lane.items, [])
        (computeNewPositions lane)).1 := rfl
  rw [hres, hchar] at hx
  cases hfind : (computeNewPositions lane).find? (fun e => e.1 == k) with
  | none =>
    rw [hfind] at hx
    have hx2 : lane.items.getD k none = some x := hx
    obtain ⟨f, hf, _, _⟩ := find?_fst_exists (computeNewPositions lane)
      (occupied_mem_computeNewPositions lane hx2)
    exact Option.noConfusion (hfind ▸ hf)
  | some e =>
    rw [hfind] at hx
    have hx2 : slotResult lane.nextLaneCoord (lane.items.getD k none) e.2.1 =
      some x := hx
    have hek : e.1 = k := beq_iff_eq.mp
      (List.find?_some (p := fun (x : Nat × Nat × Nat) => x.1 == k) hfind)
    have hemem : e ∈ computeNewPositions lane := List.mem_of_find?_eq_some hfind
    rcases resolveLoop_entry_src lane.beltType.positionsPerTick
        lane.nextLaneCoord.isNone _ [] e hemem with habs | ⟨s, hs, h1, h2, h3⟩
    · exact absurd habs (List.not_mem_nil e)
    · have hsocc : s ∈ occupiedWithIdx 0 lane.items :=
        ((sortByPosDesc_perm _).mem_iff).mp hs
      obtain ⟨k0, hk0, hgetD⟩ :=
        (mem_occupiedWithIdx lane.items 0 s.1 s.2.1 s.2.2).mp hsocc
      have hk0k : k0 = s.1 := by omega
      subst hk0k
      rw [← h1, hek] at hgetD
      rw [hgetD] at hx2
      have hstored :
          (if 255 < e.2.1 then
            (if lane.nextLaneCoord.isSome then none else some (s.2.1, 255))
          else some (s.2.1, e.2.1)) = some x := hx2
      refine ⟨e, hemem, hek, ?_, h3, (s.2.1, s.2.2), hgetD, ?_, h2⟩
      · by_cases hcm : 255 < e.2.1
        · rw [if_pos hcm] at hstored
          cases hnextc : lane.nextLaneCoord with
          | some c =>
            rw [hnextc] at hstored
            exact Option.noConfusion (show (none : Option (Item × Nat)) = some x
              from hstored)
          | none =>
            rw [hnextc] at hstored
            have hxv : (s.2.1, (255 : Nat)) = x := by
              injection hstored
            rw [← hxv, h3, if_pos ⟨hcm, by rw [hnextc]; rfl⟩]
        · rw [if_neg hcm] at hstored
          have hxv : (s.2.1, e.2.1) = x := by injection hstored
          rw [← hxv, h3, if_neg (fun hand => hcm hand.1)]
      · by_cases hcm : 255 < e.2.1
        · rw [if_pos hcm] at hstored
          cases hnextc : lane.nextLaneCoord with
          | some c =>
            rw [hnextc] at hstored
            exact Option.noConfusion (show (none : Option (Item × Nat)) = some x
              from hstored)
          | none =>
            rw [hnextc] at hstored
            have hxv : (s.2.1, (255 : Nat)) = x := by
              injection hstored
            rw [← hxv]
        · rw [if_neg hcm] at hstored
          have hxv : (s.2.1, e.2.1) = x := by injection hstored
          rw [← hxv]

/-- Advance preserves the 64-gap invariant among the items that remain
on the lane. -/
theorem tickAndGetTransfers_gap (lane : SingleBeltLane)
    (hgap : gapOK lane) (hpos : posOK lane) :
    gapOK (tickAndGetTransfers lane).1 := by
  have hpairocc : (occupiedWithIdx 0 lane.items).Pairwise
      (fun a b => a.2.2 + 64 ≤ b.2.2 ∨ b.2.2 + 64 ≤ a.2.2) := by
    have hg := hgap
    unfold gapOK lanePositions at hg
    rw [← occupiedWithIdx_map_pos lane.items 0] at hg
    exact List.pairwise_map.mp hg
  have hpairsrt : (sortByPosDesc (occupiedWithIdx 0 lane.items)).Pairwise
      (fun a b => a.2.2 + 64 ≤ b.2.2 ∨ b.2.2 + 64 ≤ a.2.2) :=
    ((sortByPosDesc_perm _).pairwise_iff (fun h => h.symm)).mpr hpairocc
  have hdesc : (sortByPosDesc (occupiedWithIdx 0 lane.items)).Pairwise
      (fun a b => b.2.2 ≤ a.2.2) := sortByPosDesc_sorted _
  have hchain : (sortByPosDesc (occupiedWithIdx 0 lane.items)).Pairwise
      (fun a b => b.2.2 + 64 ≤ a.2.2) :=
    (hdesc.and hpairsrt).imp (fun h => by rcases h with ⟨h1, h2 | h2⟩ <;> omega)
  have hle : ∀ s ∈ sortByPosDesc (occupiedWithIdx 0 lane.items), s.2.2 ≤ 255 := by
    intro s hs
    apply hpos
    unfold lanePositions
    rw [← occupiedWithIdx_map_pos lane.items 0]
    exact List.mem_map_of_mem _ ((sortByPosDesc_perm _).mem_iff.mp hs)
  have hnps : (computeNewPositions lane).Pairwise
      (fun a b => b.2.2 + 64 ≤ a.2.2) := by
    unfold computeNewPositions
    exact resolveLoop_spacing _ (positionsPerTick_le _) _ _ [] hchain hle
      List.Pairwise.nil (by simp)
  have hnps2 : (computeNewPositions lane).Pairwise
      (fun a b => a.2.2 + 64 ≤ b.2.2 ∨ b.2.2 + 64 ≤ a.2.2) :=
    hnps.imp (fun h => Or.inr h)
  unfold gapOK lanePositions
  apply pairwise_positions_of_getD
  intro j k x y hjk hj hk
  obtain ⟨ej, hejmem, hej1, hxj, _, _, _, _, _⟩ := result_slot_spacing lane hj
  obtain ⟨ek, hekmem, hek1, hxk, _, _, _, _, _⟩ := result_slot_spacing lane hk
  have hne : ej ≠ ek := by
    intro hEq
    rw [hEq, hek1] at hej1
    omega
  have hsym : Symmetric (fun (a b : Nat × Nat × Nat) =>
      a.2.2 + 64 ≤ b.2.2 ∨ b.2.2 + 64 ≤ a.2.2) := fun a b h => h.symm
  have hrel := (hnps2.forall hsym) hejmem hekmem hne
  rw [hxj, hxk]
  exact hrel

/-! ### Handle-multiset lemmas -/

theorem slotHandles_cons_none (rest : List (Option (Item × Nat))) :
    slotHandles (none :: rest) = slotHandles rest := by
  simp [slotHandles]

theorem slotHandles_cons_some (s : Item × Nat) (rest : List (Option (Item × Nat))) :
    slotHandles (some s :: rest) = s.1 ::ₘ slotHandles rest := by
  simp [slotHandles]

/-- Re-storing the same item at a slot keeps the handle multiset. -/
theorem slotHandles_set_keep :
    ∀ (items : List (Option (Item × Nat))) (j : Nat) (it : Item) (p q : Nat),
      items.getD j none = some (it, q) →
      slotHandles (items.set j (some (it, p))) = slotHandles items
  | [], _, _, _, _, h =>
    Option.noConfusion (show (none : Option (Item × Nat)) = some _ from h)
  | s :: rest, 0, it, p, q, h => by
    have hs : s = some (it, q) := h
    subst hs
    rw [List.set_cons_zero, slotHandles_cons_some, slotHandles_cons_some]
  | s :: rest, j + 1, it, p, q, h => by
    have h2 : rest.getD j none = some (it, q) := h
    rw [List.set_cons_succ]
    cases s with
    | none =>
      rw [slotHandles_cons_none, slotHandles_cons_none,
        slotHandles_set_keep rest j it p q h2]
    | some s0 =>
      rw [slotHandles_cons_some, slotHandles_cons_some,
        slotHandles_set_keep rest j it p q h2]

/-- Vacating an occupied slot removes exactly that handle. -/
theorem slotHandles_set_vacate :
    ∀ (items : List (Option (Item × Nat))) (j : Nat) (it : Item) (q : Nat),
      items.getD j none = some (it, q) →
      it ::ₘ slotHandles (items.set j none) = slotHandles items
  | [], _, _, _, h =>
    Option.noConfusion (show (none : Option (Item × Nat)) = some _ from h)
  | s :: rest, 0, it, q, h => by
    have hs : s = some (it, q) := h
    subst hs
    rw [List.set_cons_zero, slotHandles_cons_none, slotHandles_cons_some]
  | s :: rest, j + 1, it, q, h => by
    have h2 : rest.getD j none = some (it, q) := h
    rw [List.set_cons_succ]
    cases s with
    | none =>
      rw [slotHandles_cons_none, slotHandles_cons_none,
        slotHandles_set_vacate rest j it q h2]
    | some s0 =>
      rw [slotHandles_cons_some, slotHandles_cons_some,
        ← slotHandles_set_vacate rest j it q h2]
      rw [Multiset.cons_swap]

/-- Filling an empty slot adds exactly the new handle. -/
theorem slotHandles_set_fill :
    ∀ (items : List (Option (Item × Nat))) (j : Nat) (it : Item) (p : Nat),
      items.getD j none = none → j < items.length →
      slotHandles (items.set j (some (it, p))) = it ::ₘ slotHandles items
  | [], j, _, _, _, hlen => absurd hlen (by simp)
  | s :: rest, 0, it, p, h, _ => by
    have hs : s = none := h
    subst hs
    rw [List.set_cons_zero, slotHandles_cons_none, slotHandles_cons_some]
  | s :: rest, j + 1, it, p, h, hlen => by
    have h2 : rest.getD j none = none := h
    rw [List.set_cons_succ]
    cases s with
    | none =>
      rw [slotHandles_cons_none, slotHandles_cons_none,
        slotHandles_set_fill rest j it p h2 (by simpa using hlen)]
    | some s0 =>
      rw [slotHandles_cons_some, slotHandles_cons_some,
        slotHandles_set_fill rest j it p h2 (by simpa using hlen),
        Multiset.cons_swap]

/-- The apply loop conserves handles: final slots plus emitted transfers
carry exactly the original handles. -/
theorem applyNewPositions_handles (next : Option Coordinate) :
    ∀ (nps : List (Nat × Nat × Nat)) (items : List (Option (Item × Nat)))
      (tr : List (Item × Nat)),
      slotHandles (applyNewPositions next (items, tr) nps).1 +
        (((applyNewPositions next (items, tr) nps).2.map Prod.fst :
          List Item) : Multiset Item) =
      slotHandles items + ((tr.map Prod.fst : List Item) : Multiset Item)
  | [], items, tr => rfl
  | e :: rest, items, tr => by
    cases hslot : items.getD e.1 none with
    | none =>
      rw [applyNewPositions_cons_empty next tr rest hslot]
      exact applyNewPositions_handles next rest items tr
    | some sv =>
      obtain ⟨item, q⟩ := sv
      rw [applyNewPositions_cons_occupied next tr rest hslot]
      by_cases hcm : 255 < e.2.1
      · rw [if_pos hcm]
        cases hnext : next.isSome with
        | true =>
          rw [if_pos rfl, applyNewPositions_handles next rest _ _]
          have hvac := slotHandles_set_vacate items e.1 item q hslot
          have hmap : (((tr ++ [(item, e.2.1 - 256)]).map Prod.fst :
              List Item) : Multiset Item) =
              ((tr.map Prod.fst : List Item) : Multiset Item) + {item} := by
            rw [List.map_append, ← Multiset.coe_add]
            simp
          rw [hmap, ← hvac, ← Multiset.singleton_add]
          abel
        | false =>
          rw [if_neg (by simp [hnext]), applyNewPositions_handles next rest _ _,
            slotHandles_set_keep items e.1 item 255 q hslot]
      · rw [if_neg hcm, applyNewPositions_handles next rest _ _,
          slotHandles_set_keep items e.1 item e.2.1 q hslot]

/-- Advance conserves handles on one lane. -/
theorem tickAndGetTransfers_handles (lane : SingleBeltLane) :
    laneItemHandles (tickAndGetTransfers lane).1 +
      (((tickAndGetTransfers lane).2.map Prod.fst : List Item) : Multiset Item) =
    laneItemHandles lane := by
  have h := applyNewPositions_handles lane.nextLaneCoord
    (computeNewPositions lane) lane.items []
  simpa [laneItemHandles] using h

/-- Without a successor the apply loop emits no transfers. -/
theorem applyNewPositions_transfers_no_succ :
    ∀ (nps : List (Nat × Nat × Nat)) (items : List (Option (Item × Nat)))
      (tr : List (Item × Nat)),
      (applyNewPositions none (items, tr) nps).2 = tr
  | [], items, tr => rfl
  | e :: rest, items, tr => by
    cases hslot : items.getD e.1 none with
    | none =>
      rw [applyNewPositions_cons_empty none tr rest hslot]
      exact applyNewPositions_transfers_no_succ rest items tr
    | some sv =>
      obtain ⟨item, q⟩ := sv
      rw [applyNewPositions_cons_occupied none tr rest hslot]
      by_cases hcm : 255 < e.2.1
      · rw [if_pos hcm, if_neg (by simp)]
        exact applyNewPositions_transfers_no_succ rest _ tr
      · rw [if_neg hcm]
        exact applyNewPositions_transfers_no_succ rest _ tr

/-- A lane without a successor emits no transfers. -/
theorem tickAndGetTransfers_no_succ (lane : SingleBeltLane)
    (h : lane.nextLaneCoord = none) : (tickAndGetTransfers lane).2 = [] := by
  show (applyNewPositions lane.nextLaneCoord (lane.items, [])
    (computeNewPositions lane)).2 = []
  rw [h]
  exact applyNewPositions_transfers_no_succ _ _ _

theorem filterMap_some_comp {α β : Type} (f : α → β) :
    ∀ (l : List α), l.filterMap (fun a => some (f a)) = l.map f
  | [] => rfl
  | a :: l => by
    simp [List.filterMap_cons, filterMap_some_comp f l]

/-- Tagging conserves handles lane by lane. -/
theorem laneTickTagged_handles (lane : SingleBeltLane) :
    laneItemHandles (laneTickTagged lane).1 +
      (((laneTickTagged lane).2.map (fun t => t.2.1) : List Item) : Multiset Item) =
    laneItemHandles lane := by
  cases hnc : lane.nextLaneCoord with
  | some c =>
    have htag : (laneTickTagged lane).2 =
        (tickAndGetTransfers lane).2.map (fun t => (c, t.1, t.2)) := by
      show ((tickAndGetTransfers lane).2.filterMap
        (fun t => lane.nextLaneCoord.map (fun c2 => (c2, t.1, t.2)))) =
        (tickAndGetTransfers lane).2.map (fun t => (c, t.1, t.2))
      rw [hnc]
      exact filterMap_some_comp (fun (t : Item × Nat) => (c, t.1, t.2)) _
    have h1 : laneItemHandles (laneTickTagged lane).1 =
        laneItemHandles (tickAndGetTransfers lane).1 := rfl
    rw [h1, htag, List.map_map]
    have hcomp : ((fun (t : Coordinate × Item × Nat) => t.2.1) ∘
        (fun (t : Item × Nat) => (c, t.1, t.2))) = Prod.fst := by
      funext t
      rfl
    rw [hcomp]
    exact tickAndGetTransfers_handles lane
  | none =>
    have htag : (laneTickTagged lane).2 = [] := by
      unfold laneTickTagged
      rw [hnc]
      simp
    have h1 : laneItemHandles (laneTickTagged lane).1 =
        laneItemHandles (tickAndGetTransfers lane).1 := rfl
    rw [h1, htag]
    have h2 := tickAndGetTransfers_handles lane
    rw [tickAndGetTransfers_no_succ lane hnc] at h2
    simpa using h2

/-- One belt's phase A conserves handles. -/
theorem beltTick_handles (b : SingleBelt) :
    beltItemHandles (beltTick b).1 +
      (((beltTick b).2.map (fun t => t.2.1) : List Item) : Multiset Item) =
    beltItemHandles b := by
  have hL := laneTickTagged_handles b.leftLane
  have hR := laneTickTagged_handles b.rightLane
  have h1 : beltItemHandles (beltTick b).1 =
      laneItemHandles (laneTickTagged b.leftLane).1 +
      laneItemHandles (laneTickTagged b.rightLane).1 := rfl
  have h2 : (beltTick b).2 =
      (laneTickTagged b.leftLane).2 ++ (laneTickTagged b.rightLane).2 := rfl
  rw [h1, h2, List.map_append, ← Multiset.coe_add,
    show beltItemHandles b =
      laneItemHandles b.leftLane + laneItemHandles b.rightLane from rfl,
    ← hL, ← hR]
  abel

/-- Phase A over the whole world conserves handles. -/
theorem phaseA_handles :
    ∀ (bs : List (Coordinate × SingleBelt)),
      (((phaseA bs).1.map (fun p => beltItemHandles p.2)).sum) +
        ((((phaseA bs).2.map (fun t => t.2.1)) : List Item) : Multiset Item) =
      ((bs.map (fun p => beltItemHandles p.2)).sum)
  | [] => rfl
  | (c, b) :: rest => by
    have h1 : (phaseA ((c, b) :: rest)).1 =
        (c, (beltTick b).1) :: (phaseA rest).1 := rfl
    have h2 : (phaseA ((c, b) :: rest)).2 =
        (beltTick b).2 ++ (phaseA rest).2 := rfl
    rw [h1, h2, List.map_cons, List.sum_cons, List.map_append, ← Multiset.coe_add,
      List.map_cons, List.sum_cons]
    have hb := beltTick_handles b
    have hrest := phaseA_handles rest
    rw [← hb, ← hrest]
    abel

/-! ### Phase B lemmas -/

/-- Replacing the belt stored at a coordinate exchanges exactly that
belt's handles in the world total. -/
theorem updateBelt_handles :
    ∀ (bs : List (Coordinate × SingleBelt)) (c : Coordinate) (b b2 : SingleBelt),
      (bs.find? (fun p => p.1 == c)).map Prod.snd = some b →
      ((updateBelt bs c b2).map (fun p => beltItemHandles p.2)).sum +
        beltItemHandles b =
      (bs.map (fun p => beltItemHandles p.2)).sum + beltItemHandles b2
  | [], c, b, b2, h => by simp [List.find?] at h
  | p :: rest, c, b, b2, h => by
    by_cases hpc : p.1 = c
    · rw [List.find?_cons_of_pos _ (by simp [hpc])] at h
      have hb : b = p.2 := by
        injection h with h
        exact h.symm
      subst hb
      rw [show updateBelt (p :: rest) c b2 =
        (if p.1 = c then (c, b2) :: rest else p :: updateBelt rest c b2) from rfl,
        if_pos hpc]
      rw [List.map_cons, List.sum_cons, List.map_cons, List.sum_cons]
      abel
    · rw [List.find?_cons_of_neg _ (by simp [hpc])] at h
      rw [show updateBelt (p :: rest) c b2 =
        (if p.1 = c then (c, b2) :: rest else p :: updateBelt rest c b2) from rfl,
        if_neg hpc]
      rw [List.map_cons, List.sum_cons, List.map_cons, List.sum_cons,
        add_assoc, add_assoc, updateBelt_handles rest c b b2 h]

/-- Replacing the looked-up belt by itself is the identity. -/
theorem updateBelt_self :
    ∀ (bs : List (Coordinate × SingleBelt)) (c : Coordinate) (b : SingleBelt),
      (bs.find? (fun p => p.1 == c)).map Prod.snd = some b →
      updateBelt bs c b = bs
  | [], c, b, h => by simp [List.find?] at h
  | p :: rest, c, b, h => by
    by_cases hpc : p.1 = c
    · rw [List.find?_cons_of_pos _ (by simp [hpc])] at h
      have hb : b = p.2 := by
        injection h with h
        exact h.symm
      subst hb
      rw [show updateBelt (p :: rest) c p.2 =
        (if p.1 = c then (c, p.2) :: rest else p :: updateBelt rest c p.2) from rfl,
        if_pos hpc]
      rw [← hpc]
    · rw [List.find?_cons_of_neg _ (by simp [hpc])] at h
      rw [show updateBelt (p :: rest) c b =
        (if p.1 = c then (c, b) :: rest else p :: updateBelt rest c b) from rfl,
        if_neg hpc]
      rw [updateBelt_self rest c b h]

/-- A successful `accept_item` adds exactly the accepted handle. -/
theorem acceptItem_accepted_handles (lane : SingleBeltLane) (it : Item) (p : Nat)
    (h : (acceptItem lane it p).2 = true) :
    laneItemHandles (acceptItem lane it p).1 = it ::ₘ laneItemHandles lane := by
  unfold acceptItem at h ⊢
  by_cases hc : adjustPosition lane.items p ≤ 255
  · rw [if_pos hc] at h ⊢
    cases hplace : placeInFirstEmpty (it, adjustPosition lane.items p)
        lane.items with
    | none =>
      rw [hplace] at h
      exact absurd h (by simp)
    | some newItems =>
      rw [hplace] at h
      obtain ⟨j, hlt, hempty, rfl⟩ := placeInFirstEmpty_spec _ _ _ hplace
      show slotHandles (lane.items.set j (some (it, adjustPosition lane.items p))) =
        it ::ₘ slotHandles lane.items
      exact slotHandles_set_fill lane.items j it _ hempty hlt
  · rw [if_neg hc] at h
    exact absurd h (by simp)

theorem worldItemHandles_mk (bs : List (Coordinate × SingleBelt)) :
    worldItemHandles ⟨bs⟩ = (bs.map (fun p => beltItemHandles p.2)).sum := rfl

/-- Unfolding `applyTransfer` when the target tile exists. -/
theorem applyTransfer_eq_found (w : World) (t : Coordinate × Item × Nat)
    (belt : SingleBelt) (h : w.lookupBelt t.1 = some belt) :
    applyTransfer w t =
      (if (acceptItem belt.leftLane t.2.1 t.2.2).2 then
        ⟨updateBelt w.belts t.1
          { belt with leftLane := (acceptItem belt.leftLane t.2.1 t.2.2).1 }⟩
      else
        ⟨updateBelt w.belts t.1
          { belt with leftLane := (acceptItem belt.leftLane t.2.1 t.2.2).1,
                      rightLane := (acceptItem belt.rightLane t.2.1 t.2.2).1 }⟩) := by
  unfold applyTransfer
  rw [h]

/-- Unfolding `applyTransfer` when the target tile is missing. -/
theorem applyTransfer_eq_missing (w : World) (t : Coordinate × Item × Nat)
    (h : w.lookupBelt t.1 = none) : applyTransfer w t = w := by
  unfold applyTransfer
  rw [h]

/-- Delivering one transfer adds at most the carried handle to the world
(and loses it when the target tile is missing or both lanes refuse). -/
theorem applyTransfer_handles_le (w : World) (t : Coordinate × Item × Nat) :
    worldItemHandles (applyTransfer w t) ≤ worldItemHandles w + {t.2.1} := by
  cases hlook : w.lookupBelt t.1 with
  | none =>
    rw [applyTransfer_eq_missing w t hlook]
    exact Multiset.le_add_right _ _
  | some belt =>
    rw [applyTransfer_eq_found w t belt hlook]
    have hfind : (w.belts.find? (fun p => p.1 == t.1)).map Prod.snd = some belt :=
      hlook
    by_cases hL : (acceptItem belt.leftLane t.2.1 t.2.2).2 = true
    · rw [if_pos hL]
      have hupd := updateBelt_handles w.belts t.1 belt
        { belt with leftLane := (acceptItem belt.leftLane t.2.1 t.2.2).1 } hfind
      have hbh : beltItemHandles
          { belt with leftLane := (acceptItem belt.leftLane t.2.1 t.2.2).1 } =
          beltItemHandles belt + {t.2.1} := by
        show laneItemHandles (acceptItem belt.leftLane t.2.1 t.2.2).1 +
          laneItemHandles belt.rightLane = _
        rw [acceptItem_accepted_handles belt.leftLane t.2.1 t.2.2 hL,
          ← Multiset.singleton_add,
          show beltItemHandles belt =
            laneItemHandles belt.leftLane + laneItemHandles belt.rightLane from rfl]
        abel
      have heq : ((updateBelt w.belts t.1
          { belt with leftLane := (acceptItem belt.leftLane t.2.1 t.2.2).1 }).map
          (fun p => beltItemHandles p.2)).sum =
          (w.belts.map (fun p => beltItemHandles p.2)).sum + {t.2.1} := by
        apply add_right_cancel (b := beltItemHandles belt)
        rw [hupd, hbh]
        abel
      rw [worldItemHandles_mk, worldItemHandles_mk, heq]
    · rw [if_neg hL]
      have hLfalse : (acceptItem belt.leftLane t.2.1 t.2.2).2 = false := by
        simpa using hL
      have hLunch := acceptItem_not_accepted belt.leftLane t.2.1 t.2.2 hLfalse
      by_cases hR : (acceptItem belt.rightLane t.2.1 t.2.2).2 = true
      · have hupd := updateBelt_handles w.belts t.1 belt
          { belt with leftLane := (acceptItem belt.leftLane t.2.1 t.2.2).1,
                      rightLane := (acceptItem belt.rightLane t.2.1 t.2.2).1 } hfind
        have hbh : beltItemHandles
            { belt with leftLane := (acceptItem belt.leftLane t.2.1 t.2.2).1,
                        rightLane := (acceptItem belt.rightLane t.2.1 t.2.2).1 } =
            beltItemHandles belt + {t.2.1} := by
          show laneItemHandles (acceptItem belt.leftLane t.2.1 t.2.2).1 +
            laneItemHandles (acceptItem belt.rightLane t.2.1 t.2.2).1 = _
          rw [hLunch, acceptItem_accepted_handles belt.rightLane t.2.1 t.2.2 hR,
            ← Multiset.singleton_add,
            show beltItemHandles belt =
              laneItemHandles belt.leftLane + laneItemHandles belt.rightLane from
              rfl]
          abel
        have heq : ((updateBelt w.belts t.1
            { belt with leftLane := (acceptItem belt.leftLane t.2.1 t.2.2).1,
                        rightLane := (acceptItem belt.rightLane t.2.1 t.2.2).1 }).map
            (fun p => beltItemHandles p.2)).sum =
            (w.belts.map (fun p => beltItemHandles p.2)).sum + {t.2.1} := by
          apply add_right_cancel (b := beltItemHandles belt)
          rw [hupd, hbh]
          abel
        rw [worldItemHandles_mk, worldItemHandles_mk, heq]
      · have hRfalse : (acceptItem belt.rightLane t.2.1 t.2.2).2 = false := by
          simpa using hR
        have hRunch := acceptItem_not_accepted belt.rightLane t.2.1 t.2.2 hRfalse
        rw [hLunch, hRunch]
        show worldItemHandles ⟨updateBelt w.belts t.1 belt⟩ ≤ _
        rw [updateBelt_self w.belts t.1 belt hfind]
        exact Multiset.le_add_right _ _

/-! ### World tick lemmas -/

theorem foldl_applyTransfer_handles_le :
    ∀ (ts : List (Coordinate × Item × Nat)) (w : World),
      worldItemHandles (ts.foldl applyTransfer w) ≤
        worldItemHandles w +
          ((ts.map (fun t => t.2.1) : List Item) : Multiset Item)
  | [], w => by simp
  | t :: ts, w => by
    have h1 := foldl_applyTransfer_handles_le ts (applyTransfer w t)
    have h2 := applyTransfer_handles_le w t
    have h3 : worldItemHandles ((t :: ts).foldl applyTransfer w) =
        worldItemHandles (ts.foldl applyTransfer (applyTransfer w t)) := rfl
    rw [h3]
    refine le_trans h1 (le_trans (add_le_add_right h2 _) (le_of_eq ?_))
    rw [List.map_cons, ← Multiset.cons_coe, ← Multiset.singleton_add]
    abel

/-- The world tick never creates or duplicates a handle: the post-tick
multiset is a sub-multiset of the pre-tick one. -/
theorem tick_handles_le (w : World) :
    worldItemHandles (World.tick w) ≤ worldItemHandles w := by
  have h1 := foldl_applyTransfer_handles_le (phaseA w.belts).2
    ⟨(phaseA w.belts).1⟩
  have h3 : World.tick w =
      (phaseA w.belts).2.foldl applyTransfer ⟨(phaseA w.belts).1⟩ := rfl
  rw [h3]
  refine le_trans h1 (le_of_eq ?_)
  rw [worldItemHandles_mk,
    show worldItemHandles w =
      (w.belts.map (fun p => beltItemHandles p.2)).sum from rfl]
  exact phaseA_handles w.belts

theorem phaseA_fst :
    ∀ (bs : List (Coordinate × SingleBelt)),
      (phaseA bs).1 = bs.map (fun p => (p.1, (beltTick p.2).1))
  | [] => rfl
  | (c, b) :: rest => by
    rw [show (phaseA ((c, b) :: rest)).1 =
      (c, (beltTick b).1) :: (phaseA rest).1 from rfl, phaseA_fst rest,
      List.map_cons]

/-- A tick that collects no transfers preserves the gap invariant in
every lane of the world. -/
theorem tick_gap_of_no_transfers (w : World) (hgap : worldGapOK w)
    (hpos : worldPosOK w) (hnt : (phaseA w.belts).2 = []) :
    worldGapOK (World.tick w) := by
  have h3 : World.tick w =
      (phaseA w.belts).2.foldl applyTransfer ⟨(phaseA w.belts).1⟩ := rfl
  rw [h3, hnt]
  show worldGapOK ⟨(phaseA w.belts).1⟩
  intro p hp
  rw [phaseA_fst] at hp
  obtain ⟨q, hq, rfl⟩ := List.mem_map.mp hp
  obtain ⟨hgapL, hgapR⟩ := hgap q hq
  obtain ⟨hposL, hposR⟩ := hpos q hq
  constructor
  · show gapOK (tickAndGetTransfers q.2.leftLane).1
    exact tickAndGetTransfers_gap _ hgapL hposL
  · show gapOK (tickAndGetTransfers q.2.rightLane).1
    exact tickAndGetTransfers_gap _ hgapR hposR

/-! ### Claim-facing helper lemmas -/

/-- `accept_item` never touches an occupied slot and writes at most one
slot. -/
theorem acceptItem_frame (lane : SingleBeltLane) (it : Item) (p : Nat) :
    (∀ j v, lane.items.getD j none = some v →
      (acceptItem lane it p).1.items.getD j none = some v) ∧
    ∃ i, ∀ k, k ≠ i →
      (acceptItem lane it p).1.items.getD k none = lane.items.getD k none := by
  unfold acceptItem
  by_cases hc : adjustPosition lane.items p ≤ 255
  · rw [if_pos hc]
    cases hplace : placeInFirstEmpty (it, adjustPosition lane.items p)
        lane.items with
    | none => exact ⟨fun j v hv => hv, 0, fun k _ => rfl⟩
    | some newItems =>
      obtain ⟨j, hlt, hempty, rfl⟩ := placeInFirstEmpty_spec _ _ _ hplace
      constructor
      · intro j2 v hv
        show (lane.items.set j _).getD j2 none = some v
        by_cases hj : j = j2
        · subst hj
          rw [hempty] at hv
          exact Option.noConfusion hv
        · rw [getD_set_ne lane.items _ none hj]
          exact hv
      · exact ⟨j, fun k hk =>
          getD_set_ne lane.items _ none (fun h => hk h.symm)⟩
  · rw [if_neg hc]
    exact ⟨fun j v hv => hv, 0, fun k _ => rfl⟩

/-- An item that stays on its lane keeps its handle and never moves to a
smaller position. -/
theorem advance_no_backward (lane : SingleBeltLane) (hpos : posOK lane)
    (k : Nat) (it : Item) (p : Nat) (x : Item × Nat)
    (hk : lane.items.getD k none = some (it, p))
    (hk2 : (tickAndGetTransfers lane).1.items.getD k none = some x) :
    x.1 = it ∧ p ≤ x.2 := by
  obtain ⟨e, hemem, hek, hxe, hsp, y, hy, hy1, hy2⟩ := result_slot_spacing lane hk2
  rw [hk] at hy
  have hyv : y = (it, p) := by
    injection hy with hy
    exact hy.symm
  subst hyv
  refine ⟨hy1.symm, ?_⟩
  rw [hxe, hsp]
  split
  · next hcond =>
    have hmem : p ∈ lanePositions lane := by
      unfold lanePositions
      exact List.mem_map.mpr ⟨(it, p),
        (mem_filterMap_id_iff_getD lane.items (it, p)).mpr ⟨k, hk⟩, rfl⟩
    have := hpos p hmem
    omega
  · exact hy2

/-- With a successor, a resolved position beyond 255 emits a transfer and
vacates the slot. -/
theorem advance_transfer_out (lane : SingleBeltLane)
    (hsucc : lane.nextLaneCoord.isSome = true)
    (e : Nat × Nat × Nat) (hemem : e ∈ computeNewPositions lane)
    (hcm : 255 < e.2.1) (it : Item) (q : Nat)
    (hocc : lane.items.getD e.1 none = some (it, q)) :
    (it, e.2.1 - 256) ∈ (tickAndGetTransfers lane).2 ∧
    (tickAndGetTransfers lane).1.items.getD e.1 none = none := by
  have hnd := computeNewPositions_fst_nodup lane
  constructor
  · have htr : (tickAndGetTransfers lane).2 =
        (computeNewPositions lane).filterMap
          (fun f => transferResult lane.nextLaneCoord
            (lane.items.getD f.1 none) f.2.1) := by
      have h := applyNewPositions_transfers lane.nextLaneCoord
        (computeNewPositions lane) lane.items [] hnd
      simpa using h
    rw [htr]
    have hocc2 : lane.items[e.1]?.getD none = some (it, q) := by
      rw [← List.getD_eq_getElem?_getD]
      exact hocc
    exact List.mem_filterMap.mpr ⟨e, hemem, by
      simp [transferResult, hocc2, hcm, hsucc]⟩
  · have hchar := applyNewPositions_getD lane.nextLaneCoord
      (computeNewPositions lane) lane.items [] hnd e.1
    have hres : (tickAndGetTransfers lane).1.items =
        (applyNewPositions lane.nextLaneCoord (lane.items, [])
          (computeNewPositions lane)).1 := rfl
    rw [hres, hchar, find?_fst_of_mem_nodup _ hnd e hemem]
    show slotResult lane.nextLaneCoord (lane.items.getD e.1 none) e.2.1 = none
    rw [hocc]
    simp [slotResult, hcm, hsucc]

/-- Phase B delivery policy for one transfer record whose target tile
exists: left lane first, right lane only on refusal, dropped if both
refuse. -/
theorem applyTransfer_cases (w : World) (t : Coordinate × Item × Nat)
    (belt : SingleBelt) (h : w.lookupBelt t.1 = some belt) :
    ((acceptItem belt.leftLane t.2.1 t.2.2).2 = true →
      applyTransfer w t =
        ⟨updateBelt w.belts t.1
          { belt with leftLane := (acceptItem belt.leftLane t.2.1 t.2.2).1 }⟩) ∧
    ((acceptItem belt.leftLane t.2.1 t.2.2).2 = false →
      (acceptItem belt.rightLane t.2.1 t.2.2).2 = true →
      applyTransfer w t =
        ⟨updateBelt w.belts t.1
          { belt with rightLane := (acceptItem belt.rightLane t.2.1 t.2.2).1 }⟩) ∧
    ((acceptItem belt.leftLane t.2.1 t.2.2).2 = false →
      (acceptItem belt.rightLane t.2.1 t.2.2).2 = false →
      applyTransfer w t = w) := by
  refine ⟨fun hL => ?_, fun hL hR => ?_, fun hL hR => ?_⟩
  · rw [applyTransfer_eq_found w t belt h, if_pos hL]
  · rw [applyTransfer_eq_found w t belt h, if_neg (by simp [hL]),
      acceptItem_not_accepted belt.leftLane t.2.1 t.2.2 hL]
  · rw [applyTransfer_eq_found w t belt h, if_neg (by simp [hL]),
      acceptItem_not_accepted belt.leftLane t.2.1 t.2.2 hL,
      acceptItem_not_accepted belt.rightLane t.2.1 t.2.2 hR]
    show (⟨updateBelt w.belts t.1 belt⟩ : World) = w
    rw [updateBelt_self w.belts t.1 belt h]

/-! ### Claim theorems -/

/-- C1 (counterexample): on a Regular lane with no successor holding items
at 100 and 170, one advance yields positions 108 and 178 — not the claimed
{108, 172}: 172 is not among the resulting positions. -/
theorem C1_counterexample :
    lanePositions (tickAndGetTransfers
      ⟨[some (1, 100), some (2, 170), none, none, none], .Regular, none⟩).1 =
      [108, 178] ∧
    172 ∉ lanePositions (tickAndGetTransfers
      ⟨[some (1, 100), some (2, 170), none, none, none], .Regular, none⟩).1 := by
  decide

/-- C1 (amended): for a Regular-speed lane with no successor holding
exactly two items at positions 100 and 170, one call to advance
(`tick_and_get_transfers`) results in the two items being at positions
108 and 178 — the leading item is unobstructed (the gap is 70 ≥ 64) and
advances the full 8 positions. -/
theorem C1_amended :
    tickAndGetTransfers
      ⟨[some (1, 100), some (2, 170), none, none, none], .Regular, none⟩ =
      (⟨[some (1, 108), some (2, 178), none, none, none], .Regular, none⟩,
        []) := by
  decide

/-- C2 (counterexample): a world whose only belt carries an item at 250
with a successor coordinate pointing at a missing tile loses that item in
one tick: the global handle multiset changes from {7} to empty. -/
theorem C2_counterexample :
    worldItemHandles (World.tick
      ⟨[(⟨0, 0⟩,
        ⟨⟨[some (7, 250), none, none, none, none], .Regular, some ⟨1, 0⟩⟩,
          ⟨[none, none, none, none, none], .Regular, none⟩, ⟨0, 0⟩⟩)]⟩) ≠
    worldItemHandles
      ⟨[(⟨0, 0⟩,
        ⟨⟨[some (7, 250), none, none, none, none], .Regular, some ⟨1, 0⟩⟩,
          ⟨[none, none, none, none, none], .Regular, none⟩, ⟨0, 0⟩⟩)]⟩ := by
  decide

/-- C2 (amended): one call to `World::tick` never creates or duplicates an
item handle: the post-tick global multiset of handles is a sub-multiset of
the pre-tick one.  (Items can be lost when a transfer's delivery fails.) -/
theorem C2_amended : ∀ (w : World),
    worldItemHandles (World.tick w) ≤ worldItemHandles w :=
  tick_handles_le

/-- C3 (counterexample): a world satisfying both position and gap
invariants can violate the 64-gap invariant after one fully completed
`World::tick`: a transferred item lands at position 2 on a lane whose own
item has just advanced to 20. -/
theorem C3_counterexample :
    worldGapOK
      ⟨[(⟨0, 0⟩,
        ⟨⟨[some (1, 250), none, none, none, none], .Regular, some ⟨1, 0⟩⟩,
          ⟨[none, none, none, none, none], .Regular, none⟩, ⟨0, 0⟩⟩),
        (⟨1, 0⟩,
        ⟨⟨[some (2, 12), none, none, none, none], .Regular, none⟩,
          ⟨[none, none, none, none, none], .Regular, none⟩, ⟨1, 0⟩⟩)]⟩ ∧
    worldPosOK
      ⟨[(⟨0, 0⟩,
        ⟨⟨[some (1, 250), none, none, none, none], .Regular, some ⟨1, 0⟩⟩,
          ⟨[none, none, none, none, none], .Regular, none⟩, ⟨0, 0⟩⟩),
        (⟨1, 0⟩,
        ⟨⟨[some (2, 12), none, none, none, none], .Regular, none⟩,
          ⟨[none, none, none, none, none], .Regular, none⟩, ⟨1, 0⟩⟩)]⟩ ∧
    ¬ worldGapOK (World.tick
      ⟨[(⟨0, 0⟩,
        ⟨⟨[some (1, 250), none, none, none, none], .Regular, some ⟨1, 0⟩⟩,
          ⟨[none, none, none, none, none], .Regular, none⟩, ⟨0, 0⟩⟩),
        (⟨1, 0⟩,
        ⟨⟨[some (2, 12), none, none, none, none], .Regular, none⟩,
          ⟨[none, none, none, none, none], .Regular, none⟩, ⟨1, 0⟩⟩)]⟩) := by
  decide

/-- C3 (amended): after every fully completed call to `World::tick` in
which phase A collects no transfers, any two occupied slots within the
same lane have positions differing by at least 64, provided every lane
satisfied the gap and position invariants before the tick.  (A delivered
transfer may land within 64 of an item ahead of it on the receiving
lane.) -/
theorem C3_amended (w : World) (hgap : worldGapOK w) (hpos : worldPosOK w)
    (hnt : (phaseA w.belts).2 = []) : worldGapOK (World.tick w) :=
  tick_gap_of_no_transfers w hgap hpos hnt

/-- C3 (witness): a one-belt world with a single item at 10 on a Regular
lane without successor. -/
theorem C3_amended_witness :
    worldGapOK
      ⟨[(⟨0, 0⟩,
        ⟨⟨[some (1, 10), none, none, none, none], .Regular, none⟩,
          ⟨[none, none, none, none, none], .Regular, none⟩, ⟨0, 0⟩⟩)]⟩ ∧
    worldPosOK
      ⟨[(⟨0, 0⟩,
        ⟨⟨[some (1, 10), none, none, none, none], .Regular, none⟩,
          ⟨[none, none, none, none, none], .Regular, none⟩, ⟨0, 0⟩⟩)]⟩ ∧
    (phaseA
      (⟨[(⟨0, 0⟩,
        ⟨⟨[some (1, 10), none, none, none, none], .Regular, none⟩,
          ⟨[none, none, none, none, none], .Regular, none⟩, ⟨0, 0⟩⟩)]⟩ :
        World).belts).2 = [] ∧
    worldGapOK (World.tick
      ⟨[(⟨0, 0⟩,
        ⟨⟨[some (1, 10), none, none, none, none], .Regular, none⟩,
          ⟨[none, none, none, none, none], .Regular, none⟩, ⟨0, 0⟩⟩)]⟩) :=
  ⟨by decide, by decide, by decide,
    C3_amended _ (by decide) (by decide) (by decide)⟩

/-- C4: on a lane whose occupied positions all lie in [0, 255], advance
never moves an item that remains on the lane to a smaller position (and
it keeps its handle). -/
theorem C4_no_backward (lane : SingleBeltLane) (hpos : posOK lane)
    (k : Nat) (it : Item) (p : Nat) (x : Item × Nat)
    (hk : lane.items.getD k none = some (it, p))
    (hk2 : (tickAndGetTransfers lane).1.items.getD k none = some x) :
    x.1 = it ∧ p ≤ x.2 :=
  advance_no_backward lane hpos k it p x hk hk2

/-- C4 (witness): a single item at 100 advances to 108 ≥ 100. -/
theorem C4_no_backward_witness :
    posOK (⟨[some (5, 100), none, none, none, none], .Regular, none⟩ :
      SingleBeltLane) ∧
    ((5, 108) : Item × Nat).1 = 5 ∧ 100 ≤ ((5, 108) : Item × Nat).2 :=
  ⟨by decide,
    C4_no_backward ⟨[some (5, 100), none, none, none, none], .Regular, none⟩
      (by decide) 0 5 100 (5, 108) (by decide) (by decide)⟩

/-- C5: `World::tick` runs phase B as a fold of `applyTransfer` over the
collected records, and `applyTransfer` on a record whose target tile
exists tries the left lane first, tries the right lane only if the left
returned false, and leaves the world unchanged (the item is on no lane)
when both return false. -/
theorem C5_delivery_policy (w : World) (t : Coordinate × Item × Nat)
    (belt : SingleBelt) (h : w.lookupBelt t.1 = some belt) :
    (World.tick w =
      (phaseA w.belts).2.foldl applyTransfer ⟨(phaseA w.belts).1⟩) ∧
    ((acceptItem belt.leftLane t.2.1 t.2.2).2 = true →
      applyTransfer w t =
        ⟨updateBelt w.belts t.1
          { belt with
            leftLane := (acceptItem belt.leftLane t.2.1 t.2.2).1 }⟩) ∧
    ((acceptItem belt.leftLane t.2.1 t.2.2).2 = false →
      (acceptItem belt.rightLane t.2.1 t.2.2).2 = true →
      applyTransfer w t =
        ⟨updateBelt w.belts t.1
          { belt with
            rightLane := (acceptItem belt.rightLane t.2.1 t.2.2).1 }⟩) ∧
    ((acceptItem belt.leftLane t.2.1 t.2.2).2 = false →
      (acceptItem belt.rightLane t.2.1 t.2.2).2 = false →
      applyTransfer w t = w) :=
  ⟨rfl, (applyTransfer_cases w t belt h).1,
    (applyTransfer_cases w t belt h).2.1, (applyTransfer_cases w t belt h).2.2⟩

/-- C5 (witness): delivering to a tile with an empty left lane places the
item on the left lane. -/
theorem C5_delivery_policy_witness :
    applyTransfer
      ⟨[(⟨0, 0⟩,
        ⟨⟨[none, none, none, none, none], .Regular, none⟩,
          ⟨[none, none, none, none, none], .Regular, none⟩, ⟨0, 0⟩⟩)]⟩
      (⟨0, 0⟩, 3, 7) =
    ⟨updateBelt
      [(⟨0, 0⟩,
        ⟨⟨[none, none, none, none, none], .Regular, none⟩,
          ⟨[none, none, none, none, none], .Regular, none⟩, ⟨0, 0⟩⟩)]
      ⟨0, 0⟩
      { (⟨⟨[none, none, none, none, none], .Regular, none⟩,
          ⟨[none, none, none, none, none], .Regular, none⟩, ⟨0, 0⟩⟩ :
            SingleBelt) with
        leftLane :=
          (acceptItem
            (⟨[none, none, none, none, none], .Regular, none⟩ :
              SingleBeltLane) 3 7).1 }⟩ :=
  (C5_delivery_policy
    ⟨[(⟨0, 0⟩,
      ⟨⟨[none, none, none, none, none], .Regular, none⟩,
        ⟨[none, none, none, none, none], .Regular, none⟩, ⟨0, 0⟩⟩)]⟩
    (⟨0, 0⟩, 3, 7)
    ⟨⟨[none, none, none, none, none], .Regular, none⟩,
      ⟨[none, none, none, none, none], .Regular, none⟩, ⟨0, 0⟩⟩
    (by decide)).2.1 (by decide)

/-- C6: on a lane with a successor, every `new_positions` entry whose
resolved actual position exceeds 255 has its slot vacated and its item
emitted as a transfer at `carry_position = candidate − 256`; in
particular a single item at 250 on a Regular lane with a successor yields
exactly one transfer at carry position 2 and leaves the lane empty. -/
theorem C6_transfer_emission (lane : SingleBeltLane)
    (hsucc : lane.nextLaneCoord.isSome = true) (e : Nat × Nat × Nat)
    (hemem : e ∈ computeNewPositions lane) (hcm : 255 < e.2.1)
    (it : Item) (q : Nat) (hocc : lane.items.getD e.1 none = some (it, q)) :
    ((it, e.2.1 - 256) ∈ (tickAndGetTransfers lane).2 ∧
      (tickAndGetTransfers lane).1.items.getD e.1 none = none) ∧
    tickAndGetTransfers
      ⟨[some (1, 250), none, none, none, none], .Regular, some ⟨1, 0⟩⟩ =
      (⟨[none, none, none, none, none], .Regular, some ⟨1, 0⟩⟩, [(1, 2)]) :=
  ⟨advance_transfer_out lane hsucc e hemem hcm it q hocc, by decide⟩

/-- C6 (witness): the single item at 250 on a Regular lane with successor. -/
theorem C6_transfer_emission_witness :
    ((1, 2) : Item × Nat) ∈ (tickAndGetTransfers
      ⟨[some (1, 250), none, none, none, none], .Regular, some ⟨1, 0⟩⟩).2 ∧
    (tickAndGetTransfers
      ⟨[some (1, 250), none, none, none, none], .Regular,
        some ⟨1, 0⟩⟩).1.items.getD 0 none = none :=
  (C6_transfer_emission
    ⟨[some (1, 250), none, none, none, none], .Regular, some ⟨1, 0⟩⟩
    (by decide) (0, 258, 258) (by decide) (by decide) 1 250 (by decide)).1

/-- C7: whenever `accept_item` returns false the lane is completely
unchanged; in particular a lane pre-filled with five items at
{0, 64, 128, 192, 255} refuses a sixth item at target 240 and is left
unchanged. -/
theorem C7_refusal_frame :
    (∀ (lane : SingleBeltLane) (it : Item) (p : Nat),
      (acceptItem lane it p).2 = false → (acceptItem lane it p).1 = lane) ∧
    acceptItem
      ⟨[some (1, 0), some (2, 64), some (3, 128), some (4, 192),
        some (5, 255)], .Regular, none⟩ 6 240 =
      (⟨[some (1, 0), some (2, 64), some (3, 128), some (4, 192),
        some (5, 255)], .Regular, none⟩, false) :=
  ⟨acceptItem_not_accepted, by decide⟩

/-- C7 (witness): the full-lane refusal leaves the lane unchanged. -/
theorem C7_refusal_frame_witness :
    (acceptItem
      ⟨[some (1, 0), some (2, 64), some (3, 128), some (4, 192),
        some (5, 255)], .Regular, none⟩ 6 240).1 =
    ⟨[some (1, 0), some (2, 64), some (3, 128), some (4, 192),
      some (5, 255)], .Regular, none⟩ :=
  C7_refusal_frame.1
    ⟨[some (1, 0), some (2, 64), some (3, 128), some (4, 192),
      some (5, 255)], .Regular, none⟩ 6 240 (by decide)

/-- C8: `accept_item` on an empty lane returns true and stores the item
at exactly `min(target, 255)`, for every item and target position. -/
theorem C8_accept_empty (lane : SingleBeltLane) (it : Item) (p : Nat)
    (hne : lane.items ≠ []) (h : ∀ s ∈ lane.items, s = none) :
    (acceptItem lane it p).2 = true ∧
    (acceptItem lane it p).1.items.filterMap id = [(it, min p 255)] :=
  acceptItem_on_empty lane it p hne h

/-- C8 (witness): accepting item 9 at target 300 on the empty five-slot
lane stores it at min 300 255 = 255. -/
theorem C8_accept_empty_witness :
    (acceptItem
      (⟨[none, none, none, none, none], .Regular, none⟩ : SingleBeltLane)
      9 300).2 = true ∧
    (acceptItem
      (⟨[none, none, none, none, none], .Regular, none⟩ : SingleBeltLane)
      9 300).1.items.filterMap id = [(9, min 300 255)] :=
  C8_accept_empty ⟨[none, none, none, none, none], .Regular, none⟩ 9 300
    (by decide) (by decide)

/-- C9: during phase B a transfer record whose target coordinate has no
tile is silently discarded — the world is unchanged by that record, so
the carried item ends up on no lane — and the tick completes normally; in
particular a one-belt world sending an item to a missing tile ends the
tick with no items at all. -/
theorem C9_missing_tile_drop :
    (∀ (w : World) (t : Coordinate × Item × Nat),
      w.lookupBelt t.1 = none → applyTransfer w t = w) ∧
    World.tick
      ⟨[(⟨0, 0⟩,
        ⟨⟨[some (7, 250), none, none, none, none], .Regular, some ⟨1, 0⟩⟩,
          ⟨[none, none, none, none, none], .Regular, none⟩, ⟨0, 0⟩⟩)]⟩ =
      ⟨[(⟨0, 0⟩,
        ⟨⟨[none, none, none, none, none], .Regular, some ⟨1, 0⟩⟩,
          ⟨[none, none, none, none, none], .Regular, none⟩, ⟨0, 0⟩⟩)]⟩ ∧
    worldItemHandles (World.tick
      ⟨[(⟨0, 0⟩,
        ⟨⟨[some (7, 250), none, none, none, none], .Regular, some ⟨1, 0⟩⟩,
          ⟨[none, none, none, none, none], .Regular, none⟩, ⟨0, 0⟩⟩)]⟩) = 0 :=
  ⟨fun w t h => applyTransfer_eq_missing w t h, by decide, by decide⟩

/-- C9 (witness): a transfer aimed at the empty world is discarded. -/
theorem C9_missing_tile_drop_witness :
    applyTransfer (⟨[]⟩ : World) (⟨0, 0⟩, 1, 2) = (⟨[]⟩ : World) :=
  C9_missing_tile_drop.1 ⟨[]⟩ (⟨0, 0⟩, 1, 2) (by decide)

/-- C10: `accept_item` never modifies an occupied slot — every slot that
was occupied before the call holds the same pair afterwards, true or
false — and it changes at most one slot (which was previously empty). -/
theorem C10_accept_frame (lane : SingleBeltLane) (it : Item) (p : Nat) :
    (∀ j v, lane.items.getD j none = some v →
      (acceptItem lane it p).1.items.getD j none = some v) ∧
    ∃ i, ∀ k, k ≠ i →
      (acceptItem lane it p).1.items.getD k none = lane.items.getD k none :=
  acceptItem_frame lane it p

/-- C10 (witness): accepting a new item leaves the occupied slot 0 of a
one-item lane untouched. -/
theorem C10_accept_frame_witness :
    (acceptItem
      (⟨[some (3, 200), none, none, none, none], .Regular, none⟩ :
        SingleBeltLane) 4 10).1.items.getD 0 none = some (3, 200) :=
  (C10_accept_frame
    ⟨[some (3, 200), none, none, none, none], .Regular, none⟩ 4 10).1
    0 (3, 200) (by decide)

end Belt

